import Mathlib

/-!
Verification development for the dns44 repository: a shallow embedding of
the mapping store (mapping/db.go), the DNS rewrite handler
(dnsproxy/dnsproxy.go), the UDP transparent forwarder (tproxy/udp.go), the
future connection (tproxy/future_conn.go) and the address pool (package
pool), together with theorems about the embedded operations.

Modelling conventions:
- IPv4 addresses are represented by their 32-bit numeric value (a Nat).
  The database stores addresses as TEXT via netip.Addr.String(), which is
  injective on valid addresses and round-trips through netip.ParseAddr, so
  address equality coincides with string equality of the stored literals.
- Wall-clock time is a Nat of nanoseconds; time.Time.Unix() is floor
  division by 10^9.  All reads of time.Now() within one call of an
  embedded operation are modelled as a single instant.
- time.Duration is an Int of nanoseconds.
- The pool's random stream is an explicit function from draw index to the
  drawn value; rand.Intn n is value mod n, and panics when n = 0.
- Fallible operations return Option or Except; a panic or an indefinite
  block is None at the outermost layer.
-/

namespace Mapping

/-- insertRetries constant from mapping/db.go. -/
def insertRetries : Nat := 20

/-- cleanupDebounceInterval (1 second) in nanoseconds. -/
def cleanupDebounceIntervalNs : Nat := 1000000000

/-- One row of the mapping table: columns client_key, domain_name,
mapped_addr (as the numeric IPv4 value), expire (UNIX seconds). -/
structure MappingRow where
  clientKey : String
  domainName : String
  mappedAddr : Nat
  expire : Int
deriving DecidableEq, Repr

/-- Predicate for a conflict on the composite primary key
(client_key, domain_name). -/
def rowKeyMatch (ck dn : String) (r : MappingRow) : Bool :=
  r.clientKey == ck && r.domainName == dn

/-- Predicate for a conflict on the unique constraint
(client_key, mapped_addr). -/
def rowAddrMatch (ck : String) (a : Nat) (r : MappingRow) : Bool :=
  r.clientKey == ck && r.mappedAddr == a

/-- Effect of DO UPDATE SET expire = ? on a row conflicting with the
primary key (client_key, domain_name); other rows are untouched. -/
def updExpire (ck dn : String) (e : Int) (s : MappingRow) : MappingRow :=
  if rowKeyMatch ck dn s then { s with expire := e } else s

/-- Semantics of the upsert statement in SQLiteMapping.EnsureMapping:
INSERT .. ON CONFLICT (client_key, domain_name) DO UPDATE SET expire = ?
ON CONFLICT (client_key, mapped_addr) DO NOTHING RETURNING mapped_addr.
A conflict on the primary key updates that row's expire and returns its
mapped_addr; otherwise a conflict on (client_key, mapped_addr) affects no
row (sql.ErrNoRows at the caller, modelled as none); otherwise the fresh
row is inserted and its address returned. -/
def upsertMapping (tbl : List MappingRow) (ck dn : String) (a : Nat) (e : Int) :
    List MappingRow × Option Nat :=
  match tbl.find? (rowKeyMatch ck dn) with
  | some r => (tbl.map (updExpire ck dn e), some r.mappedAddr)
  | none =>
    if tbl.any (rowAddrMatch ck a) then (tbl, none)
    else (tbl ++ [⟨ck, dn, a, e⟩], some a)

/-- time.Time.Unix() of a nanosecond instant. -/
def unixOf (ns : Nat) : Int := (ns / 1000000000 : Nat)

/-- int64(math.Round(ttl.Seconds())): seconds rounded half away from
zero, on exact (rational) arithmetic. -/
def goRoundSeconds (ttlNs : Int) : Int :=
  if 0 ≤ ttlNs then ((ttlNs.toNat + 500000000) / 1000000000 : Nat)
  else -((((-ttlNs).toNat + 500000000) / 1000000000 : Nat) : Int)

/-- State of the SQLiteMapping facade: the persisted table plus the
lastCleanup timestamp guarded by cleanupMux. -/
structure SQLiteMapping where
  table : List MappingRow
  lastCleanup : Nat
deriving Repr

/-- DELETE FROM mapping WHERE expire < now. -/
def purgeExpired (tbl : List MappingRow) (nowUnix : Int) : List MappingRow :=
  tbl.filter (fun r => !(r.expire < nowUnix))

/-- SQLiteMapping.cleanup: debounced purge of expired rows. -/
def cleanup (m : SQLiteMapping) (nowNs : Nat) : SQLiteMapping :=
  if cleanupDebounceIntervalNs < nowNs - m.lastCleanup then
    { table := purgeExpired m.table (unixOf nowNs), lastCleanup := nowNs }
  else m

/-- The retry loop body of EnsureMapping: up to the given fuel of further
attempts, starting at draw index i. -/
def ensureLoop (draws : Nat → Nat) (ck dn : String) (e : Int) :
    List MappingRow → Nat → Nat → List MappingRow × Option Nat
  | tbl, _, 0 => (tbl, none)
  | tbl, i, fuel + 1 =>
    match upsertMapping tbl ck dn (draws i) e with
    | (tbl1, some a) => (tbl1, some a)
    | (tbl1, none) => ensureLoop draws ck dn e tbl1 (i + 1) fuel

/-- SQLiteMapping.EnsureMapping: run the debounced cleanup, then retry the
upsert with fresh pool draws up to insertRetries times.  The draws
argument is the address pool's random stream; none in the result is
ErrTooManyAttempts. -/
def EnsureMapping (m : SQLiteMapping) (draws : Nat → Nat) (ck dn : String)
    (ttlNs : Int) (nowNs : Nat) : SQLiteMapping × Option Nat :=
  ({ cleanup m nowNs with
      table := (ensureLoop draws ck dn (unixOf nowNs + goRoundSeconds ttlNs)
        (cleanup m nowNs).table 0 insertRetries).1 },
   (ensureLoop draws ck dn (unixOf nowNs + goRoundSeconds ttlNs)
        (cleanup m nowNs).table 0 insertRetries).2)

/-- SQLiteMapping.ReverseLookup: SELECT domain_name FROM mapping WHERE
client_key = ? AND mapped_addr = ? LIMIT 1.  none models ok = false. -/
def ReverseLookup (m : SQLiteMapping) (ck : String) (a : Nat) : Option String :=
  (m.table.find? (rowAddrMatch ck a)).map MappingRow.domainName

/-- Schema invariant: the primary key (client_key, domain_name) and the
unique constraint (client_key, mapped_addr) hold across the table. -/
def RowsOk (tbl : List MappingRow) : Prop :=
  tbl.Pairwise (fun r s =>
    ¬(r.clientKey = s.clientKey ∧ r.domainName = s.domainName) ∧
    ¬(r.clientKey = s.clientKey ∧ r.mappedAddr = s.mappedAddr))

instance (tbl : List MappingRow) : Decidable (RowsOk tbl) :=
  inferInstanceAs (Decidable (List.Pairwise _ tbl))

theorem rowKeyMatch_iff {ck dn : String} {r : MappingRow} :
    rowKeyMatch ck dn r = true ↔ r.clientKey = ck ∧ r.domainName = dn := by
  simp [rowKeyMatch]

theorem rowAddrMatch_iff {ck : String} {a : Nat} {r : MappingRow} :
    rowAddrMatch ck a r = true ↔ r.clientKey = ck ∧ r.mappedAddr = a := by
  simp [rowAddrMatch]

theorem updExpire_clientKey (ck dn : String) (e : Int) (s : MappingRow) :
    (updExpire ck dn e s).clientKey = s.clientKey := by
  unfold updExpire; split <;> rfl

theorem updExpire_domainName (ck dn : String) (e : Int) (s : MappingRow) :
    (updExpire ck dn e s).domainName = s.domainName := by
  unfold updExpire; split <;> rfl

theorem updExpire_mappedAddr (ck dn : String) (e : Int) (s : MappingRow) :
    (updExpire ck dn e s).mappedAddr = s.mappedAddr := by
  unfold updExpire; split <;> rfl

theorem rowKeyMatch_updExpire (ck' dn' ck dn : String) (e : Int) (s : MappingRow) :
    rowKeyMatch ck' dn' (updExpire ck dn e s) = rowKeyMatch ck' dn' s := by
  simp [rowKeyMatch, updExpire_clientKey, updExpire_domainName]

theorem rowAddrMatch_updExpire (ck' : String) (a : Nat) (ck dn : String) (e : Int)
    (s : MappingRow) :
    rowAddrMatch ck' a (updExpire ck dn e s) = rowAddrMatch ck' a s := by
  simp [rowAddrMatch, updExpire_clientKey, updExpire_mappedAddr]

/-- find? only depends on the pointwise values of its predicate. -/
theorem find?_ext {α : Type} (p q : α → Bool) (h : ∀ x, p x = q x) (l : List α) :
    l.find? p = l.find? q := by
  induction l with
  | nil => rfl
  | cons x xs ih =>
    simp only [List.find?]
    rw [h x, ih]

/-- find? is stable under filtering as long as the found element is kept. -/
theorem find?_filter_found {α : Type} (p q : α → Bool) :
    ∀ (l : List α) (r : α), l.find? p = some r → q r = true →
      (l.filter q).find? p = some r := by
  intro l
  induction l with
  | nil => intro r h _; simp at h
  | cons x xs ih =>
    intro r h hq
    by_cases hpx : p x = true
    · rw [List.find?_cons_of_pos _ hpx] at h
      have hxr : x = r := by injection h
      subst hxr
      rw [List.filter_cons_of_pos hq, List.find?_cons_of_pos _ hpx]
    · rw [List.find?_cons_of_neg _ hpx] at h
      rw [List.filter_cons]
      by_cases hqx : q x = true
      · rw [if_pos hqx, List.find?_cons_of_neg _ hpx]
        exact ih r h hq
      · rw [if_neg hqx]
        exact ih r h hq

theorem find?_rowKeyMatch_map_updExpire (ck' dn' ck dn : String) (e : Int)
    (tbl : List MappingRow) :
    (tbl.map (updExpire ck dn e)).find? (rowKeyMatch ck' dn')
      = (tbl.find? (rowKeyMatch ck' dn')).map (updExpire ck dn e) := by
  rw [List.find?_map]
  congr 1
  exact find?_ext _ _ (fun s => rowKeyMatch_updExpire ck' dn' ck dn e s) tbl

theorem find?_rowAddrMatch_map_updExpire (ck' : String) (a : Nat) (ck dn : String)
    (e : Int) (tbl : List MappingRow) :
    (tbl.map (updExpire ck dn e)).find? (rowAddrMatch ck' a)
      = (tbl.find? (rowAddrMatch ck' a)).map (updExpire ck dn e) := by
  rw [List.find?_map]
  congr 1
  exact find?_ext _ _ (fun s => rowAddrMatch_updExpire ck' a ck dn e s) tbl

/-- In a table obeying the (client_key, mapped_addr) unique constraint, a
member row is the find? result for its own address key. -/
theorem find?_rowAddrMatch_of_mem {tbl : List MappingRow} (hok : RowsOk tbl)
    {r : MappingRow} (hmem : r ∈ tbl) {ck : String} (hck : r.clientKey = ck) :
    tbl.find? (rowAddrMatch ck r.mappedAddr) = some r := by
  induction tbl with
  | nil => cases hmem
  | cons x xs ih =>
    rcases List.mem_cons.mp hmem with hx | hxs
    · subst hx
      have : rowAddrMatch ck r.mappedAddr r = true :=
        rowAddrMatch_iff.mpr ⟨hck, rfl⟩
      rw [List.find?_cons_of_pos _ this]
    · have hpair := List.pairwise_cons.mp hok
      have hxr := (hpair.1 r hxs).2
      have hxfalse : ¬ rowAddrMatch ck r.mappedAddr x = true := by
        intro hc
        rcases rowAddrMatch_iff.mp hc with ⟨h1, h2⟩
        exact hxr ⟨h1.trans hck.symm, h2⟩
      rw [List.find?_cons_of_neg _ hxfalse]
      exact ih hpair.2 hxs

theorem upsert_none_iff (tbl : List MappingRow) (ck dn : String) (a : Nat) (e : Int) :
    (upsertMapping tbl ck dn a e).2 = none ↔
      tbl.find? (rowKeyMatch ck dn) = none ∧ tbl.any (rowAddrMatch ck a) = true := by
  unfold upsertMapping
  cases hf : tbl.find? (rowKeyMatch ck dn) with
  | some r => simp [hf]
  | none =>
    by_cases ha : tbl.any (rowAddrMatch ck a) = true
    · simp [ha]
    · simp [ha]

theorem upsert_none_fst {tbl : List MappingRow} {ck dn : String} {a : Nat} {e : Int}
    (h : (upsertMapping tbl ck dn a e).2 = none) :
    (upsertMapping tbl ck dn a e).1 = tbl := by
  rcases (upsert_none_iff tbl ck dn a e).mp h with ⟨h1, h2⟩
  unfold upsertMapping
  rw [h1]
  simp [h2]

/-- A successful upsert leaves a row for (client_key, domain_name) carrying
the returned address and the written expire. -/
theorem upsert_success_key1 {tbl tbl' : List MappingRow} {ck dn : String} {a : Nat}
    {e : Int} {x : Nat} (h : upsertMapping tbl ck dn a e = (tbl', some x)) :
    ∃ row, tbl'.find? (rowKeyMatch ck dn) = some row ∧
      row.mappedAddr = x ∧ row.expire = e := by
  unfold upsertMapping at h
  cases hf : tbl.find? (rowKeyMatch ck dn) with
  | some r =>
    rw [hf] at h
    have htbl : tbl' = tbl.map (updExpire ck dn e) := by
      have := congrArg Prod.fst h; simpa using this.symm
    have hx : x = r.mappedAddr := by
      have := congrArg Prod.snd h; simpa using this.symm
    have hkr : rowKeyMatch ck dn r = true := List.find?_some hf
    refine ⟨updExpire ck dn e r, ?_, ?_, ?_⟩
    · rw [htbl, find?_rowKeyMatch_map_updExpire, hf]; rfl
    · rw [updExpire_mappedAddr, hx]
    · unfold updExpire; rw [if_pos hkr]
  | none =>
    rw [hf] at h
    by_cases ha : tbl.any (rowAddrMatch ck a) = true
    · rw [if_pos ha] at h
      exact absurd (congrArg Prod.snd h) (by simp)
    · rw [if_neg ha] at h
      have htbl : tbl' = tbl ++ [⟨ck, dn, a, e⟩] := by
        have := congrArg Prod.fst h; simpa using this.symm
      have hx : x = a := by
        have := congrArg Prod.snd h; simpa using this.symm
      have hnew : rowKeyMatch ck dn ⟨ck, dn, a, e⟩ = true :=
        rowKeyMatch_iff.mpr ⟨rfl, rfl⟩
      refine ⟨⟨ck, dn, a, e⟩, ?_, hx.symm, rfl⟩
      rw [htbl, List.find?_append, hf]
      simp [hnew]

/-- A successful upsert on a table obeying the unique constraints leaves a
row for (client_key, returned address) whose domain is the requested one. -/
theorem upsert_success_key2 {tbl tbl' : List MappingRow} {ck dn : String} {a : Nat}
    {e : Int} {x : Nat} (hok : RowsOk tbl)
    (h : upsertMapping tbl ck dn a e = (tbl', some x)) :
    ∃ row, tbl'.find? (rowAddrMatch ck x) = some row ∧ row.domainName = dn := by
  unfold upsertMapping at h
  cases hf : tbl.find? (rowKeyMatch ck dn) with
  | some r =>
    rw [hf] at h
    have htbl : tbl' = tbl.map (updExpire ck dn e) := by
      have := congrArg Prod.fst h; simpa using this.symm
    have hx : x = r.mappedAddr := by
      have := congrArg Prod.snd h; simpa using this.symm
    rcases rowKeyMatch_iff.mp (List.find?_some hf) with ⟨hck, hdn⟩
    have hmem : r ∈ tbl := List.mem_of_find?_eq_some hf
    have hfr : tbl.find? (rowAddrMatch ck r.mappedAddr) = some r :=
      find?_rowAddrMatch_of_mem hok hmem hck
    refine ⟨updExpire ck dn e r, ?_, ?_⟩
    · rw [htbl, hx, find?_rowAddrMatch_map_updExpire, hfr]; rfl
    · rw [updExpire_domainName]; exact hdn
  | none =>
    rw [hf] at h
    by_cases ha : tbl.any (rowAddrMatch ck a) = true
    · rw [if_pos ha] at h
      exact absurd (congrArg Prod.snd h) (by simp)
    · rw [if_neg ha] at h
      have htbl : tbl' = tbl ++ [⟨ck, dn, a, e⟩] := by
        have := congrArg Prod.fst h; simpa using this.symm
      have hx : x = a := by
        have := congrArg Prod.snd h; simpa using this.symm
      have hnone : tbl.find? (rowAddrMatch ck a) = none := by
        rcases List.find?_eq_none.symm with _
        apply List.find?_eq_none.mpr
        intro y hy hc
        exact (List.any_eq_false.mp (Bool.not_eq_true _ ▸ ha) y hy) hc
      have hnew : rowAddrMatch ck a (⟨ck, dn, a, e⟩ : MappingRow) = true :=
        rowAddrMatch_iff.mpr ⟨rfl, rfl⟩
      refine ⟨⟨ck, dn, a, e⟩, ?_, rfl⟩
      rw [htbl, hx, List.find?_append, hnone]
      simp [hnew]

/-- Upserting preserves the schema's uniqueness invariants. -/
theorem upsert_rowsOk {tbl : List MappingRow} (hok : RowsOk tbl) (ck dn : String)
    (a : Nat) (e : Int) : RowsOk (upsertMapping tbl ck dn a e).1 := by
  unfold upsertMapping
  cases hf : tbl.find? (rowKeyMatch ck dn) with
  | some r =>
    simp only []
    unfold RowsOk
    rw [List.pairwise_map]
    refine hok.imp ?_
    intro s t hst
    constructor
    · intro hc
      exact hst.1 ⟨(updExpire_clientKey ck dn e s) ▸ (updExpire_clientKey ck dn e t) ▸ hc.1,
        (updExpire_domainName ck dn e s) ▸ (updExpire_domainName ck dn e t) ▸ hc.2⟩
    · intro hc
      exact hst.2 ⟨(updExpire_clientKey ck dn e s) ▸ (updExpire_clientKey ck dn e t) ▸ hc.1,
        (updExpire_mappedAddr ck dn e s) ▸ (updExpire_mappedAddr ck dn e t) ▸ hc.2⟩
  | none =>
    by_cases ha : tbl.any (rowAddrMatch ck a) = true
    · simpa [ha] using hok
    · simp only []
      rw [if_neg ha]
      unfold RowsOk
      rw [List.pairwise_append]
      refine ⟨hok, List.pairwise_singleton _ _, ?_⟩
      intro s hs t ht
      have ht' : t = (⟨ck, dn, a, e⟩ : MappingRow) := by simpa using ht
      subst ht'
      constructor
      · intro hc
        have := List.find?_eq_none.mp hf s hs
        exact this (rowKeyMatch_iff.mpr ⟨hc.1, hc.2⟩)
      · intro hc
        have := List.any_eq_false.mp (Bool.not_eq_true _ ▸ ha) s hs
        exact this (rowAddrMatch_iff.mpr ⟨hc.1, hc.2⟩)

theorem ensureLoop_rowsOk (draws : Nat → Nat) (ck dn : String) (e : Int) :
    ∀ (fuel : Nat) (tbl : List MappingRow) (i : Nat), RowsOk tbl →
      RowsOk (ensureLoop draws ck dn e tbl i fuel).1 := by
  intro fuel
  induction fuel with
  | zero => intro tbl i hok; exact hok
  | succ n ih =>
    intro tbl i hok
    unfold ensureLoop
    rcases hup : upsertMapping tbl ck dn (draws i) e with ⟨tbl1, res⟩
    have h1 : (upsertMapping tbl ck dn (draws i) e).1 = tbl1 := by rw [hup]
    cases res with
    | some a =>
      simp only []
      exact h1 ▸ upsert_rowsOk hok ck dn (draws i) e
    | none =>
      simp only []
      exact ih _ _ (h1 ▸ upsert_rowsOk hok ck dn (draws i) e)

/-- A successful retry loop leaves a (client_key, domain_name) row carrying
the returned address and the computed expire. -/
theorem ensureLoop_success_key1 (draws : Nat → Nat) (ck dn : String) (e : Int) :
    ∀ (fuel : Nat) (tbl : List MappingRow) (i : Nat) (tbl' : List MappingRow) (a : Nat),
      ensureLoop draws ck dn e tbl i fuel = (tbl', some a) →
      ∃ row, tbl'.find? (rowKeyMatch ck dn) = some row ∧
        row.mappedAddr = a ∧ row.expire = e := by
  intro fuel
  induction fuel with
  | zero =>
    intro tbl i tbl' a h
    exact absurd (congrArg Prod.snd h) (by simp [ensureLoop])
  | succ n ih =>
    intro tbl i tbl' a h
    unfold ensureLoop at h
    rcases hup : upsertMapping tbl ck dn (draws i) e with ⟨tbl1, res⟩
    rw [hup] at h
    cases res with
    | some x =>
      simp only [Prod.mk.injEq, Option.some.injEq] at h
      exact upsert_success_key1 (x := a) (h.1 ▸ h.2 ▸ hup)
    | none =>
      simp only [] at h
      have h2 : (upsertMapping tbl ck dn (draws i) e).2 = none := by rw [hup]
      have h1 : tbl1 = tbl := by
        have := upsert_none_fst h2; rw [hup] at this; exact this
      exact ih tbl (i + 1) tbl' a (h1 ▸ h)

/-- Same for the (client_key, mapped_addr) key, under the invariants. -/
theorem ensureLoop_success_key2 (draws : Nat → Nat) (ck dn : String) (e : Int) :
    ∀ (fuel : Nat) (tbl : List MappingRow) (i : Nat) (tbl' : List MappingRow) (a : Nat),
      RowsOk tbl →
      ensureLoop draws ck dn e tbl i fuel = (tbl', some a) →
      ∃ row, tbl'.find? (rowAddrMatch ck a) = some row ∧ row.domainName = dn := by
  intro fuel
  induction fuel with
  | zero =>
    intro tbl i tbl' a _ h
    exact absurd (congrArg Prod.snd h) (by simp [ensureLoop])
  | succ n ih =>
    intro tbl i tbl' a hok h
    unfold ensureLoop at h
    rcases hup : upsertMapping tbl ck dn (draws i) e with ⟨tbl1, res⟩
    rw [hup] at h
    cases res with
    | some x =>
      simp only [Prod.mk.injEq, Option.some.injEq] at h
      exact upsert_success_key2 (x := a) hok (h.1 ▸ h.2 ▸ hup)
    | none =>
      simp only [] at h
      have h2 : (upsertMapping tbl ck dn (draws i) e).2 = none := by rw [hup]
      have h1 : tbl1 = tbl := by
        have := upsert_none_fst h2; rw [hup] at this; exact this
      exact ih tbl (i + 1) tbl' a hok (h1 ▸ h)

theorem cleanup_rowsOk (m : SQLiteMapping) (nowNs : Nat) (hok : RowsOk m.table) :
    RowsOk (cleanup m nowNs).table := by
  unfold cleanup
  split
  · exact List.Pairwise.sublist (List.filter_sublist _) hok
  · exact hok

/-- The debounced cleanup keeps any row that has not yet expired, and
keeps it at the same find? position. -/
theorem cleanup_find? (m : SQLiteMapping) (nowNs : Nat) (p : MappingRow → Bool)
    (r : MappingRow) (hf : m.table.find? p = some r)
    (hlive : unixOf nowNs ≤ r.expire) :
    (cleanup m nowNs).table.find? p = some r := by
  unfold cleanup
  split
  · unfold purgeExpired
    apply find?_filter_found _ _ _ _ hf
    have : ¬(r.expire < unixOf nowNs) := not_lt.mpr hlive
    simp [this]
  · exact hf

/-- With a (client_key, domain_name) row present, the very first upsert
attempt returns its stored address and refreshes its expire. -/
theorem ensureLoop_hit (draws : Nat → Nat) (ck dn : String) (e : Int)
    (tbl : List MappingRow) (i fuel : Nat) (r : MappingRow)
    (hf : tbl.find? (rowKeyMatch ck dn) = some r) :
    ensureLoop draws ck dn e tbl i (fuel + 1)
      = (tbl.map (updExpire ck dn e), some r.mappedAddr) := by
  have hup : upsertMapping tbl ck dn (draws i) e
      = (tbl.map (updExpire ck dn e), some r.mappedAddr) := by
    unfold upsertMapping
    rw [hf]
  unfold ensureLoop
  rw [hup]

/-- TooManyAttempts is returned exactly when every one of the attempted
candidates leaves the upsert with no affected row. -/
theorem ensureLoop_none_iff (draws : Nat → Nat) (ck dn : String) (e : Int) :
    ∀ (fuel : Nat) (tbl : List MappingRow) (i : Nat),
      (ensureLoop draws ck dn e tbl i fuel).2 = none ↔
        ∀ j < fuel, (upsertMapping tbl ck dn (draws (i + j)) e).2 = none := by
  intro fuel
  induction fuel with
  | zero => intro tbl i; simp [ensureLoop]
  | succ n ih =>
    intro tbl i
    unfold ensureLoop
    rcases hup : upsertMapping tbl ck dn (draws i) e with ⟨tbl1, res⟩
    cases res with
    | some x =>
      simp only []
      constructor
      · intro h; exact absurd h (by simp)
      · intro hall
        have h0 := hall 0 (Nat.succ_pos n)
        rw [Nat.add_zero, hup] at h0
        exact absurd h0 (by simp)
    | none =>
      simp only []
      have h2 : (upsertMapping tbl ck dn (draws i) e).2 = none := by rw [hup]
      have h1 : tbl1 = tbl := by
        have := upsert_none_fst h2; rw [hup] at this; exact this
      subst h1
      rw [ih tbl1 (i + 1)]
      constructor
      · intro hall j hj
        cases j with
        | zero => rw [Nat.add_zero]; exact h2
        | succ k =>
          have hk := hall k (by omega)
          rw [show i + 1 + k = i + (k + 1) by omega] at hk
          exact hk
      · intro hall j hj
        have hk := hall (j + 1) (by omega)
        rw [show i + (j + 1) = i + 1 + j by omega] at hk
        exact hk

/-- The retry loop reads at most its fuel's worth of pool draws. -/
theorem ensureLoop_congr (ck dn : String) (e : Int) :
    ∀ (fuel : Nat) (draws draws' : Nat → Nat) (tbl : List MappingRow) (i : Nat),
      (∀ j, i ≤ j → j < i + fuel → draws j = draws' j) →
      ensureLoop draws ck dn e tbl i fuel = ensureLoop draws' ck dn e tbl i fuel := by
  intro fuel
  induction fuel with
  | zero => intros; rfl
  | succ n ih =>
    intro draws draws' tbl i hagree
    unfold ensureLoop
    rw [hagree i (le_refl i) (by omega)]
    rcases hup : upsertMapping tbl ck dn (draws' i) e with ⟨tbl1, res⟩
    cases res with
    | some x => simp only []
    | none =>
      simp only []
      exact ih draws draws' tbl1 (i + 1) (fun j h1 h2 => hagree j (by omega) (by omega))

/-- EnsureMapping on a live (client_key, domain_name) row: the stored
address is returned unchanged and the row's expire is refreshed. -/
theorem ensureMapping_hit (m : SQLiteMapping) (draws : Nat → Nat) (ck dn : String)
    (ttlNs : Int) (nowNs : Nat) (r : MappingRow)
    (hf : m.table.find? (rowKeyMatch ck dn) = some r)
    (hlive : unixOf nowNs ≤ r.expire) :
    (EnsureMapping m draws ck dn ttlNs nowNs).2 = some r.mappedAddr ∧
    (EnsureMapping m draws ck dn ttlNs nowNs).1.table.find? (rowKeyMatch ck dn)
      = some { r with expire := unixOf nowNs + goRoundSeconds ttlNs } := by
  have hf1 := cleanup_find? m nowNs _ r hf hlive
  have hkr : rowKeyMatch ck dn r = true := List.find?_some hf1
  unfold EnsureMapping
  rw [show insertRetries = 19 + 1 from rfl,
    ensureLoop_hit draws ck dn _ _ 0 19 r hf1]
  refine ⟨rfl, ?_⟩
  rw [find?_rowKeyMatch_map_updExpire, hf1]
  simp [updExpire, hkr]

/-- Modelled from the spec's words for comparison: the spec states
expire = now + ceil(ttl_seconds); this is the exact ceiling of the
nanosecond duration in seconds. -/
def specCeilSeconds (ttlNs : Int) : Int := -((-ttlNs).fdiv 1000000000)

end Mapping

namespace Mapping

/-- C1: if a mapping row already exists for (client_key, domain_name) and
is still live, EnsureMapping refreshes its expire and returns the row's
existing mapped_addr unchanged, and a second call with identical
arguments within the TTL window again returns the same address. -/
theorem c1_forward_stability (m : SQLiteMapping) (draws₁ draws₂ : Nat → Nat)
    (ck dn : String) (ttlNs : Int) (now₁ now₂ : Nat) (r : MappingRow)
    (hrow : m.table.find? (rowKeyMatch ck dn) = some r)
    (hlive₁ : unixOf now₁ ≤ r.expire)
    (hlive₂ : unixOf now₂ ≤ unixOf now₁ + goRoundSeconds ttlNs) :
    (EnsureMapping m draws₁ ck dn ttlNs now₁).2 = some r.mappedAddr ∧
    (EnsureMapping m draws₁ ck dn ttlNs now₁).1.table.find? (rowKeyMatch ck dn)
      = some { r with expire := unixOf now₁ + goRoundSeconds ttlNs } ∧
    (EnsureMapping (EnsureMapping m draws₁ ck dn ttlNs now₁).1 draws₂ ck dn
        ttlNs now₂).2 = some r.mappedAddr := by
  rcases ensureMapping_hit m draws₁ ck dn ttlNs now₁ r hrow hlive₁ with ⟨h1, h2⟩
  refine ⟨h1, h2, ?_⟩
  have := (ensureMapping_hit (EnsureMapping m draws₁ ck dn ttlNs now₁).1 draws₂
    ck dn ttlNs now₂ { r with expire := unixOf now₁ + goRoundSeconds ttlNs }
    h2 hlive₂).1
  simpa using this

theorem c1_witness :
    (EnsureMapping ⟨[⟨"10.0.0.1", "example.com", 5, 100⟩], 0⟩ (fun _ => 9) "10.0.0.1"
        "example.com" 2000000000 3000000000).2 = some 5 ∧
    (EnsureMapping ⟨[⟨"10.0.0.1", "example.com", 5, 100⟩], 0⟩ (fun _ => 9) "10.0.0.1"
        "example.com" 2000000000 3000000000).1.table.find?
        (rowKeyMatch "10.0.0.1" "example.com")
      = some ⟨"10.0.0.1", "example.com", 5, 5⟩ ∧
    (EnsureMapping (EnsureMapping ⟨[⟨"10.0.0.1", "example.com", 5, 100⟩], 0⟩
        (fun _ => 9) "10.0.0.1" "example.com" 2000000000 3000000000).1 (fun _ => 7)
        "10.0.0.1" "example.com" 2000000000 4000000000).2 = some 5 :=
  c1_forward_stability ⟨[⟨"10.0.0.1", "example.com", 5, 100⟩], 0⟩ (fun _ => 9)
    (fun _ => 7) "10.0.0.1" "example.com" 2000000000 3000000000 4000000000
    ⟨"10.0.0.1", "example.com", 5, 100⟩ (by decide) (by decide) (by decide)

/-- C2: after a successful EnsureMapping returning address a,
ReverseLookup on (client_key, a) yields the requested domain; an address
with no row for the client reverse-looks-up to none; and ReverseLookup is
insensitive to the expire column (no expiry filtering). -/
theorem c2_reverse_round_trip (m : SQLiteMapping) (draws : Nat → Nat)
    (ck dn : String) (ttlNs : Int) (nowNs : Nat) (hok : RowsOk m.table) :
    (∀ a, (EnsureMapping m draws ck dn ttlNs nowNs).2 = some a →
      ReverseLookup (EnsureMapping m draws ck dn ttlNs nowNs).1 ck a = some dn) ∧
    (∀ a', (∀ r ∈ m.table, ¬(r.clientKey = ck ∧ r.mappedAddr = a')) →
      ReverseLookup m ck a' = none) ∧
    (∀ (g : MappingRow → Int) (ck' : String) (a₀ : Nat),
      ReverseLookup { m with table := m.table.map (fun r => { r with expire := g r }) }
          ck' a₀ = ReverseLookup m ck' a₀) := by
  refine ⟨?_, ?_, ?_⟩
  · intro a ha
    have hok1 : RowsOk (cleanup m nowNs).table := cleanup_rowsOk m nowNs hok
    rcases hres : ensureLoop draws ck dn (unixOf nowNs + goRoundSeconds ttlNs)
        (cleanup m nowNs).table 0 insertRetries with ⟨tbl', res⟩
    have hproj : (EnsureMapping m draws ck dn ttlNs nowNs).2 = res := by
      unfold EnsureMapping; rw [hres]
    rw [hproj] at ha
    subst ha
    rcases ensureLoop_success_key2 draws ck dn _ insertRetries _ 0 tbl' a hok1 hres
      with ⟨row, hfind, hdn⟩
    have htbl : (EnsureMapping m draws ck dn ttlNs nowNs).1.table = tbl' := by
      unfold EnsureMapping; rw [hres]
    unfold ReverseLookup
    rw [htbl, hfind]
    simp [hdn]
  · intro a' hnone
    unfold ReverseLookup
    have : m.table.find? (rowAddrMatch ck a') = none := by
      apply List.find?_eq_none.mpr
      intro r hr hc
      exact hnone r hr (rowAddrMatch_iff.mp hc)
    rw [this]
    rfl
  · intro g ck' a₀
    show Option.map MappingRow.domainName
        ((m.table.map (fun r => { r with expire := g r })).find? (rowAddrMatch ck' a₀))
      = Option.map MappingRow.domainName (m.table.find? (rowAddrMatch ck' a₀))
    induction m.table with
    | nil => rfl
    | cons x xs ih =>
      have hx : rowAddrMatch ck' a₀ { x with expire := g x } = rowAddrMatch ck' a₀ x := by
        simp [rowAddrMatch]
      simp only [List.map_cons, List.find?, hx]
      cases hpx : rowAddrMatch ck' a₀ x with
      | true => rfl
      | false => exact ih

theorem c2_witness :
    ReverseLookup ⟨[⟨"10.0.0.1", "example.com", 5, 100⟩], 0⟩ "10.0.0.1" 7 = none :=
  (c2_reverse_round_trip ⟨[⟨"10.0.0.1", "example.com", 5, 100⟩], 0⟩ (fun _ => 5)
      "10.0.0.1" "example.com" 900000000000 0 (by decide)).2.1 7 (by decide)

/-- C6 counterexample: with ttl = 1.4 s at UNIX second 2, the stored
expire is 2 + round(1.4) = 3, not 2 + ceil(1.4) = 4, refuting the claim
that a fractional ttl is rounded up. -/
theorem c6_counterexample :
    (EnsureMapping ⟨[], 0⟩ (fun _ => 5) "c" "d" 1400000000 2000000000).1.table
      = [⟨"c", "d", 5, 3⟩] ∧
    unixOf 2000000000 + specCeilSeconds 1400000000 ≠ (3 : Int) := by
  decide

/-- C6 amended: EnsureMapping stores expire = now + round(ttl_seconds)
with half-away-from-zero rounding of the fractional ttl (math.Round), not
the ceiling. -/
theorem c6_expire_rounded (m : SQLiteMapping) (draws : Nat → Nat) (ck dn : String)
    (ttlNs : Int) (nowNs : Nat) (a : Nat)
    (h : (EnsureMapping m draws ck dn ttlNs nowNs).2 = some a) :
    ∃ row, (EnsureMapping m draws ck dn ttlNs nowNs).1.table.find?
        (rowKeyMatch ck dn) = some row ∧ row.mappedAddr = a ∧
      row.expire = unixOf nowNs + goRoundSeconds ttlNs := by
  rcases hres : ensureLoop draws ck dn (unixOf nowNs + goRoundSeconds ttlNs)
      (cleanup m nowNs).table 0 insertRetries with ⟨tbl', res⟩
  have hproj : (EnsureMapping m draws ck dn ttlNs nowNs).2 = res := by
    unfold EnsureMapping; rw [hres]
  rw [hproj] at h
  subst h
  have htbl : (EnsureMapping m draws ck dn ttlNs nowNs).1.table = tbl' := by
    unfold EnsureMapping; rw [hres]
  rw [htbl]
  exact ensureLoop_success_key1 draws ck dn _ insertRetries _ 0 tbl' a hres

theorem c6_witness :
    ∃ row, (EnsureMapping ⟨[], 0⟩ (fun _ => 5) "c" "d" 1400000000
        2000000000).1.table.find? (rowKeyMatch "c" "d") = some row ∧
      row.mappedAddr = 5 ∧
      row.expire = unixOf 2000000000 + goRoundSeconds 1400000000 :=
  c6_expire_rounded ⟨[], 0⟩ (fun _ => 5) "c" "d" 1400000000 2000000000 5 (by decide)

/-- C7: the allocator draws at most insertRetries = 20 candidates (the
result depends only on the first 20 draws), and it returns
TooManyAttempts exactly when no (client_key, domain_name) row exists and
every one of the 20 candidates collides with an existing
(client_key, mapped_addr) binding — never earlier. -/
theorem c7_retry_budget (m : SQLiteMapping) (draws draws' : Nat → Nat)
    (ck dn : String) (ttlNs : Int) (nowNs : Nat) :
    insertRetries = 20 ∧
    ((∀ j < insertRetries, draws j = draws' j) →
      EnsureMapping m draws ck dn ttlNs nowNs
        = EnsureMapping m draws' ck dn ttlNs nowNs) ∧
    ((EnsureMapping m draws ck dn ttlNs nowNs).2 = none ↔
      ((cleanup m nowNs).table.find? (rowKeyMatch ck dn) = none ∧
        ∀ j < insertRetries,
          (cleanup m nowNs).table.any (rowAddrMatch ck (draws j)) = true)) := by
  refine ⟨rfl, ?_, ?_⟩
  · intro hagree
    unfold EnsureMapping
    rw [ensureLoop_congr ck dn _ insertRetries draws draws' _ 0
      (fun j _ h2 => hagree j (by omega))]
  · have hproj : (EnsureMapping m draws ck dn ttlNs nowNs).2
        = (ensureLoop draws ck dn (unixOf nowNs + goRoundSeconds ttlNs)
            (cleanup m nowNs).table 0 insertRetries).2 := rfl
    rw [hproj, ensureLoop_none_iff draws ck dn _ insertRetries _ 0]
    constructor
    · intro h
      have h0 := h 0 (by decide)
      rw [Nat.zero_add] at h0
      refine ⟨((upsert_none_iff _ _ _ _ _).mp h0).1, ?_⟩
      intro j hj
      have hj' := h j hj
      rw [Nat.zero_add] at hj'
      exact ((upsert_none_iff _ _ _ _ _).mp hj').2
    · rintro ⟨hA, hB⟩ j hj
      rw [Nat.zero_add]
      exact (upsert_none_iff _ _ _ _ _).mpr ⟨hA, hB j hj⟩

theorem c7_witness :
    (EnsureMapping ⟨[⟨"c", "x", 0, 100⟩, ⟨"c", "y", 1, 100⟩], 0⟩ (fun j => j % 2)
        "c" "d" 2000000000 3000000000).2 = none :=
  ((c7_retry_budget ⟨[⟨"c", "x", 0, 100⟩, ⟨"c", "y", 1, 100⟩], 0⟩ (fun j => j % 2)
      (fun j => j % 2) "c" "d" 2000000000 3000000000).2.2).mpr (by decide)

end Mapping

namespace Dnsproxy

open Mapping

/-- dns.TypeA. -/
def typeA : Nat := 1

/-- dns.TypeAAAA. -/
def typeAAAA : Nat := 28

/-- dns.ClassINET. -/
def classINET : Nat := 1

/-- An answer resource record: RR_Header fields plus the A rdata (the
IPv4 value).  Only the fields the handler sets are modelled. -/
structure RR where
  name : String
  rrtype : Nat
  rrclass : Nat
  ttl : Nat
  rdata : Nat
deriving DecidableEq, Repr

/-- The synthesized response message: only the fields the handler sets
(resp.Compress and resp.Answer) are modelled. -/
structure DNSMsg where
  compress : Bool
  answer : List RR
deriving DecidableEq, Repr

/-- strings.ToLower (per-character lowering; ASCII case suffices for the
claims considered). -/
def goToLower (s : String) : String := ⟨s.data.map Char.toLower⟩

/-- strings.TrimSuffix: drop the suffix when present, else unchanged. -/
def goTrimSuffix (s suffix : String) : String :=
  if suffix.data.isSuffixOf s.data then
    ⟨s.data.take (s.data.length - suffix.data.length)⟩
  else s

/-- The client key computed in rewrite: the parsed source address's IP
literal, or the literal bogus marker when netip.ParseAddrPort fails.  The
argument is the outcome of that library parse. -/
def clientKeyOf (srcAddr : Option String) : String :=
  match srcAddr with
  | some a => a
  | none => "<bogus>"

/-- time.Duration(d.ttl+1)*time.Second with d.ttl a uint32, in
nanoseconds. -/
def durationOfTTL (ttl : Nat) : Int := ((((ttl + 1) % 4294967296) * 1000000000 : Nat) : Int)

/-- DNSProxy.rewrite: compute the domain and client key, call
EnsureMapping with (ttl+1) seconds, and build the response (compression
on; a single A record for A queries, nothing for AAAA).  none models the
handler returning an error. -/
def rewrite (m : SQLiteMapping) (draws : Nat → Nat) (nowNs : Nat) (qName : String)
    (qType : Nat) (srcAddr : Option String) (ttl : Nat) :
    SQLiteMapping × Option DNSMsg :=
  match EnsureMapping m draws (clientKeyOf srcAddr)
      (goTrimSuffix (goToLower qName) ".") (durationOfTTL ttl) nowNs with
  | (m', none) => (m', none)
  | (m', some a) =>
    (m', some { compress := true,
                answer := if qType == typeA then [⟨qName, qType, classINET, ttl, a⟩]
                          else [] })

/-- Outcome of DNSProxy.requestHandler: a synthesized response, a handler
error (rewrite failed), or forwarding to the upstream resolver. -/
inductive HandlerResult where
  | response (msg : DNSMsg)
  | failure
  | forwarded
deriving DecidableEq, Repr

/-- DNSProxy.requestHandler: A and AAAA queries go through rewrite; other
query types are resolved upstream. -/
def requestHandler (m : SQLiteMapping) (draws : Nat → Nat) (nowNs : Nat)
    (qName : String) (qType : Nat) (srcAddr : Option String) (ttl : Nat) :
    SQLiteMapping × HandlerResult :=
  if qType == typeA || qType == typeAAAA then
    match rewrite m draws nowNs qName qType srcAddr ttl with
    | (m', some msg) => (m', .response msg)
    | (m', none) => (m', .failure)
  else (m, .forwarded)

end Dnsproxy

namespace Dnsproxy

/-- C5: an A query is answered by lowercasing the query name and
stripping the trailing dot, deriving the client key from the source
address (bogus literal on parse failure), calling EnsureMapping with
ttl+1 seconds, and on success appending exactly one A record carrying the
returned address, class IN and the configured ttl, with compression set;
an EnsureMapping error fails the handler. -/
theorem c5_a_synthesis (m : Mapping.SQLiteMapping) (draws : Nat → Nat) (nowNs : Nat)
    (qName : String) (srcAddr : Option String) (ttl : Nat) :
    requestHandler m draws nowNs qName typeA srcAddr ttl
      = ((Mapping.EnsureMapping m draws (clientKeyOf srcAddr)
            (goTrimSuffix (goToLower qName) ".") (durationOfTTL ttl) nowNs).1,
         match (Mapping.EnsureMapping m draws (clientKeyOf srcAddr)
            (goTrimSuffix (goToLower qName) ".") (durationOfTTL ttl) nowNs).2 with
         | some a => .response ⟨true, [⟨qName, typeA, classINET, ttl, a⟩]⟩
         | none => .failure) ∧
    clientKeyOf none = "<bogus>" ∧
    goTrimSuffix (goToLower "WWW.Example.COM.") "." = "www.example.com" := by
  refine ⟨?_, rfl, by decide⟩
  unfold requestHandler rewrite
  rcases h : Mapping.EnsureMapping m draws (clientKeyOf srcAddr)
      (goTrimSuffix (goToLower qName) ".") (durationOfTTL ttl) nowNs with ⟨m', res⟩
  cases res <;> simp

/-- C10: an AAAA query takes the same rewrite path as an A query — it
calls EnsureMapping with the same client key, domain and ttl+1 seconds,
mutating the store identically — and returns a response with zero answer
records; an EnsureMapping error fails the handler instead of returning an
empty success. -/
theorem c10_aaaa_side_effect (m : Mapping.SQLiteMapping) (draws : Nat → Nat)
    (nowNs : Nat) (qName : String) (srcAddr : Option String) (ttl : Nat) :
    requestHandler m draws nowNs qName typeAAAA srcAddr ttl
      = ((Mapping.EnsureMapping m draws (clientKeyOf srcAddr)
            (goTrimSuffix (goToLower qName) ".") (durationOfTTL ttl) nowNs).1,
         match (Mapping.EnsureMapping m draws (clientKeyOf srcAddr)
            (goTrimSuffix (goToLower qName) ".") (durationOfTTL ttl) nowNs).2 with
         | some _ => .response ⟨true, []⟩
         | none => .failure) := by
  unfold requestHandler rewrite
  rcases h : Mapping.EnsureMapping m draws (clientKeyOf srcAddr)
      (goTrimSuffix (goToLower qName) ".") (durationOfTTL ttl) nowNs with ⟨m', res⟩
  cases res <;> simp [typeA, typeAAAA]

end Dnsproxy

namespace Tproxy

/-- defFutureConnBacklog constant from tproxy/future_conn.go. -/
def defFutureConnBacklog : Nat := 256

/-- State of a futureConn.  connChClosed records whether close(connCh)
has happened; backlog is the contents of the buffered channel in FIFO
order; sent is the sequence of payloads written to the underlying conn,
in call order. -/
structure FutureConn where
  connErr : Option String
  connChClosed : Bool
  doWrites : Bool
  backlog : List (List Nat)
  backlogCap : Nat
  sent : List (List Nat)
deriving DecidableEq, Repr

/-- newFutureConn: a requested backlog below 1 falls back to the
default.  The background dial is modelled separately by bgDial. -/
def newFutureConn (backlog : Int) : FutureConn :=
  { connErr := none, connChClosed := false, doWrites := false,
    backlog := [],
    backlogCap := if backlog < 1 then defFutureConnBacklog else backlog.toNat,
    sent := [] }

/-- futureConn.Write under the shared lock: in direct mode write straight
through; otherwise copy the payload into the backlog channel if space is
available, returning the byte count, else report the overflow error. -/
def Write (c : FutureConn) (b : List Nat) : FutureConn × Except String Nat :=
  if c.doWrites then ({ c with sent := c.sent ++ [b] }, .ok b.length)
  else if c.backlog.length < c.backlogCap then
    ({ c with backlog := c.backlog ++ [b] }, .ok b.length)
  else (c, .error "backlog overflow")

/-- futureConn.bgDial applied to the dial thunk's outcome: on error,
record it and return without closing connCh; on success, close connCh,
flip to direct mode under the exclusive lock and drain the backlog in
FIFO order to the underlying socket (write errors logged, not fatal). -/
def bgDial (c : FutureConn) (dialResult : Except String Unit) : FutureConn :=
  match dialResult with
  | .error e => { c with connErr := some e }
  | .ok _ =>
    { c with connChClosed := true, doWrites := true,
             backlog := [], sent := c.sent ++ c.backlog }

/-- futureConn.WaitResolve: receive on connCh; returns only once the
channel is closed.  none models blocking forever. -/
def WaitResolve (c : FutureConn) : Option Unit :=
  if c.connChClosed then some () else none

/-- futureConn.Read: wait for the dial, then read from the underlying
conn; the underlying read's outcome is the argument. -/
def Read (c : FutureConn) (connRead : Except String Nat) :
    Option (Except String Nat) :=
  (WaitResolve c).map (fun _ => connRead)

/-- futureConn.Close: wait for the dial; after a failed dial return nil,
otherwise close the underlying conn. -/
def Close (c : FutureConn) (connClose : Except String Unit) :
    Option (Except String Unit) :=
  (WaitResolve c).map (fun _ =>
    match c.connErr with
    | some _ => .ok ()
    | none => connClose)

/-- futureConn.SetDeadline: wait for the dial; after a failed dial return
the postponed error, otherwise set the deadline on the underlying conn. -/
def SetDeadline (c : FutureConn) (connSet : Except String Unit) :
    Option (Except String Unit) :=
  (WaitResolve c).map (fun _ =>
    match c.connErr with
    | some e => .error ("postponed error: " ++ e)
    | none => connSet)

/-- A sequence of Write calls with all results collected. -/
def writeAll (c : FutureConn) (bs : List (List Nat)) :
    FutureConn × List (Except String Nat) :=
  match bs with
  | [] => (c, [])
  | b :: rest =>
    ((writeAll (Write c b).1 rest).1,
     (Write c b).2 :: (writeAll (Write c b).1 rest).2)

theorem Write_buffered {c : FutureConn} (hdw : c.doWrites = false) {b : List Nat}
    (hcap : c.backlog.length < c.backlogCap) :
    Write c b = ({ c with backlog := c.backlog ++ [b] }, .ok b.length) := by
  unfold Write
  rw [if_neg (by simp [hdw]), if_pos hcap]

theorem Write_direct {c : FutureConn} (hdw : c.doWrites = true) (b : List Nat) :
    Write c b = ({ c with sent := c.sent ++ [b] }, .ok b.length) := by
  unfold Write
  rw [if_pos hdw]

/-- Pre-resolve writes that fit in the remaining backlog space all
succeed and accumulate in FIFO order. -/
theorem writeAll_buffering (bs : List (List Nat)) :
    ∀ (c : FutureConn), c.doWrites = false →
      c.backlog.length + bs.length ≤ c.backlogCap →
      writeAll c bs = ({ c with backlog := c.backlog ++ bs },
        bs.map (fun b => Except.ok b.length)) := by
  induction bs with
  | nil => intro c _ _; simp [writeAll]
  | cons b rest ih =>
    intro c hdw hcap
    have hcap1 : c.backlog.length < c.backlogCap := by
      simp at hcap; omega
    unfold writeAll
    rw [Write_buffered hdw hcap1,
      ih { c with backlog := c.backlog ++ [b] } hdw (by simp at hcap ⊢; omega)]
    simp

/-- Post-resolve writes go straight through to the socket in call
order. -/
theorem writeAll_direct (ps : List (List Nat)) :
    ∀ (c : FutureConn), c.doWrites = true →
      writeAll c ps = ({ c with sent := c.sent ++ ps },
        ps.map (fun b => Except.ok b.length)) := by
  induction ps with
  | nil => intro c _; simp [writeAll]
  | cons b rest ih =>
    intro c hdw
    unfold writeAll
    rw [Write_direct hdw b, ih { c with sent := c.sent ++ [b] } hdw]
    simp

theorem bgDial_ok (c : FutureConn) :
    bgDial c (Except.ok ())
      = ⟨c.connErr, true, true, [], c.backlogCap, c.sent ++ c.backlog⟩ := rfl

end Tproxy

namespace Tproxy

/-- C8: if the payloads bs are written before the dial resolves and fit
in the backlog, every such write succeeds, and once the dial completes
successfully the underlying socket receives exactly bs in arrival order
followed by all post-resolve writes ps — no duplicate, no loss, nothing
out of order. -/
theorem c8_future_conn_ordering (cap : Int) (bs ps : List (List Nat))
    (hlen : bs.length ≤ (newFutureConn cap).backlogCap) :
    (writeAll (newFutureConn cap) bs).2 = bs.map (fun b => Except.ok b.length) ∧
    (writeAll (bgDial (writeAll (newFutureConn cap) bs).1 (Except.ok ())) ps).1.sent
      = bs ++ ps := by
  have hbuf := writeAll_buffering bs (newFutureConn cap) rfl
    (by simpa [newFutureConn] using hlen)
  refine ⟨by rw [hbuf], ?_⟩
  have h1 : (writeAll (newFutureConn cap) bs).1
      = ⟨none, false, false, bs, (newFutureConn cap).backlogCap, []⟩ := by
    rw [hbuf]; rfl
  have h2 : bgDial (⟨none, false, false, bs, (newFutureConn cap).backlogCap, []⟩ :
        FutureConn) (Except.ok ())
      = ⟨none, true, true, [], (newFutureConn cap).backlogCap, bs⟩ := rfl
  have h3 := writeAll_direct ps
    ⟨none, true, true, [], (newFutureConn cap).backlogCap, bs⟩ rfl
  rw [h1, h2, h3]

theorem c8_witness :
    (writeAll (newFutureConn 0) [[1], [2], [3]]).2
        = List.map (fun b => Except.ok b.length) [[1], [2], [3]] ∧
    (writeAll (bgDial (writeAll (newFutureConn 0) [[1], [2], [3]]).1 (Except.ok ()))
        [[4]]).1.sent = [[1], [2], [3]] ++ [[4]] :=
  c8_future_conn_ordering 0 [[1], [2], [3]] [[4]] (by decide)

/-- C4: evaluating the code at a failing dial: bgDial records the error
but returns without closing connCh, so WaitResolve never returns and the
next Read, Close or SetDeadline blocks forever (none) instead of
observing the error — refuting the claimed behaviour and exhibiting the
bug (the error branch of bgDial skips close(connCh), leaving the
post-WaitResolve connErr checks unreachable). -/
theorem c4_dial_failure_blocks :
    (bgDial (newFutureConn 0) (.error "dial failed")).connErr = some "dial failed" ∧
    (bgDial (newFutureConn 0) (.error "dial failed")).connChClosed = false ∧
    Read (bgDial (newFutureConn 0) (.error "dial failed")) (.ok 0) = none ∧
    Close (bgDial (newFutureConn 0) (.error "dial failed")) (.ok ()) = none ∧
    SetDeadline (bgDial (newFutureConn 0) (.error "dial failed")) (.ok ()) = none :=
  ⟨rfl, rfl, rfl, rfl, rfl⟩

/-- An address-port pair (netip.AddrPort), the address as its numeric
IPv4 value (Unmap is the identity in this representation). -/
def AddrPort : Type := Nat × Nat
deriving instance DecidableEq, Repr for AddrPort

/-- UDPProxy.makeOutboundConn: reverse-lookup the client and original
destination, then synchronously dial (domain, original port) through the
configured dialer; the dialer's outcome is the dial argument and the
returned handle is whatever connection the dialer produced.  The client
key is the source address's decimal literal (an injective rendering
standing in for netip.Addr.String()). -/
def makeOutboundConn (m : Mapping.SQLiteMapping)
    (dial : String → Nat → Except String Nat) (src dst : AddrPort) :
    Except String Nat :=
  match Mapping.ReverseLookup m (toString src.1) dst.1 with
  | none => .error "reverse mapping not found"
  | some dn =>
    if dn = "" then .error "bad domain name"
    else dial dn dst.2

/-- One iteration of UDPProxy.listen for an inbound datagram: look up the
conntrack key; on a miss, call makeOutboundConn inline (dropping the
datagram if it fails) and insert the resulting connection; then forward
the payload on the connection.  The second component is the (conn,
payload) write performed, none when the datagram is dropped. -/
def listenStep (m : Mapping.SQLiteMapping)
    (connTrackTable : List ((AddrPort × AddrPort) × Nat))
    (dial : String → Nat → Except String Nat) (src dst : AddrPort)
    (payload : List Nat) :
    List ((AddrPort × AddrPort) × Nat) × Option (Nat × List Nat) :=
  match connTrackTable.find? (fun kv => kv.1 == (src, dst)) with
  | some kv => (connTrackTable, some (kv.2, payload))
  | none =>
    match makeOutboundConn m dial src dst with
    | .error _ => (connTrackTable, none)
    | .ok conn => (connTrackTable ++ [((src, dst), conn)], some (conn, payload))

/-- C3: evaluating the code on a conntrack miss: the handle inserted into
the conntrack table is exactly the connection returned by the
synchronous dialer call made inline in the receive loop, and when that
dial fails the very same step drops the datagram — the step's outcome is
a function of the dial's result, so the receive loop waits on every
resolve+dial (the deferred future connection of the claim is never
constructed; see the TODO in udp.go's makeOutboundConn). -/
theorem c3_udp_dial_is_synchronous :
    listenStep ⟨[⟨"9", "example.com", 7, 100⟩], 0⟩ []
        (fun _ _ => .ok 42) (9, 1000) (7, 53) [1, 2]
      = ([(((9, 1000), (7, 53)), 42)], some (42, [1, 2])) ∧
    listenStep ⟨[⟨"9", "example.com", 7, 100⟩], 0⟩ []
        (fun _ _ => .error "dial timeout") (9, 1000) (7, 53) [1, 2]
      = ([], none) :=
  ⟨rfl, rfl⟩

end Tproxy

namespace Pool

/-- A netip.Addr: the numeric value plus whether it is a 4-byte (IPv4)
address. -/
structure NetipAddr where
  val : Nat
  is4 : Bool
deriving DecidableEq, Repr

/-- 2^32, the modulus of uint32 arithmetic. -/
def U32 : Nat := 4294967296

/-- netip.Addr.Less in the case both operands are IPv4 (numeric order on
the 4-byte values). -/
def addrLess (a b : NetipAddr) : Bool := a.val < b.val

/-- addressPoolV4: base address and range size, both uint32. -/
structure AddressPoolV4 where
  base : Nat
  size : Nat
deriving DecidableEq, Repr

/-- pool.New: reject non-IPv4 endpoints, reject end < start, otherwise
base = start and size = end - start + 1 in wrapping uint32 arithmetic. -/
def New (start end_ : NetipAddr) : Except String AddressPoolV4 :=
  if !(start.is4 && end_.is4) then .error "unsupported address family"
  else if addrLess end_ start then .error "end of range is less than start of range"
  else .ok { base := start.val,
             size := ((end_.val + U32 - start.val) % U32 + 1) % U32 }

/-- rand.Intn n for the int64 conversion of a uint32 size on a 64-bit
platform: panics (none) when n = 0, otherwise the raw draw reduced into
[0, n). -/
def randIntn (n : Nat) (draw : Nat) : Option Nat :=
  if n = 0 then none else some (draw % n)

/-- addressPoolV4.GetRandom given one raw draw of the shared rng; the
4-byte slice round-trip through netip.AddrFromSlice always yields an
IPv4 address. -/
def GetRandom (p : AddressPoolV4) (draw : Nat) : Option NetipAddr :=
  match randIntn p.size draw with
  | none => none
  | some k => some ⟨(p.base + k) % U32, true⟩

/-- C9 counterexample: New accepts the full IPv4 range 0.0.0.0 -
255.255.255.255 (both IPv4, start ≤ end), but the uint32 size
end - start + 1 wraps to 0, so every GetRandom call reaches rand.Intn 0
and panics (none) — refuting the claim that GetRandom never fails or
panics for every pool built from IPv4 start ≤ end. -/
theorem c9_counterexample :
    New ⟨0, true⟩ ⟨4294967295, true⟩ = .ok ⟨0, 0⟩ ∧
    GetRandom ⟨0, 0⟩ 3 = none := by
  constructor
  · rfl
  · rfl

/-- C9 amended: for IPv4 endpoints start ≤ end that do not cover the
entire 32-bit space, New succeeds, and every GetRandom draw returns
(without failure or panic) an IPv4 address a with start ≤ a ≤ end; for
the full range the size wraps to 0 and rand.Intn panics. -/
theorem c9_pool_range (s e : Nat) (hse : s ≤ e) (he : e < 4294967296)
    (hfull : ¬(s = 0 ∧ e = 4294967295)) :
    ∃ p, New ⟨s, true⟩ ⟨e, true⟩ = .ok p ∧
      ∀ draw, ∃ a, GetRandom p draw = some a ∧ a.is4 = true ∧
        s ≤ a.val ∧ a.val ≤ e := by
  have hU : U32 = 4294967296 := rfl
  have h1 : (e + U32 - s) % U32 = e - s := by
    have heq : e + U32 - s = (e - s) + U32 := by omega
    rw [heq, Nat.add_mod_right]
    exact Nat.mod_eq_of_lt (by omega)
  have h2 : (e - s + 1) % U32 = e - s + 1 := by
    apply Nat.mod_eq_of_lt
    rw [hU]
    omega
  refine ⟨⟨s, e - s + 1⟩, ?_, ?_⟩
  · unfold New
    have hl : addrLess ⟨e, true⟩ ⟨s, true⟩ = false := by
      unfold addrLess
      simp
      omega
    rw [hl]
    simp only [Bool.and_self, Bool.not_true, Bool.false_eq_true, if_false]
    rw [h1, h2]
  · intro draw
    have hsz : e - s + 1 ≠ 0 := by omega
    have hk : draw % (e - s + 1) < e - s + 1 := Nat.mod_lt _ (by omega)
    have hval : (s + draw % (e - s + 1)) % U32 = s + draw % (e - s + 1) := by
      apply Nat.mod_eq_of_lt
      rw [hU]
      omega
    refine ⟨⟨(s + draw % (e - s + 1)) % U32, true⟩, ?_, rfl, ?_, ?_⟩
    · unfold GetRandom randIntn
      rw [if_neg hsz]
    · show s ≤ (s + draw % (e - s + 1)) % U32
      rw [hval]
      omega
    · show (s + draw % (e - s + 1)) % U32 ≤ e
      rw [hval]
      omega

theorem c9_witness :
    ∃ p, New ⟨0, true⟩ ⟨3, true⟩ = .ok p ∧
      ∀ draw, ∃ a, GetRandom p draw = some a ∧ a.is4 = true ∧
        0 ≤ a.val ∧ a.val ≤ 3 :=
  c9_pool_range 0 3 (by decide) (by decide) (by decide)

end Pool
